import Mathlib

/-!
Verification of the CSI scanning-probe visualization modules.

The simulation cores of the modules (SoftMEKA, SoftSThM, ResiScopeApp,
KFMApplication, SoftResiApp, KPFM_Comparison) are embedded as pure Lean
functions over exact rational arithmetic.  Transcendental primitives
(Math.sin / Math.cos) are passed as oracle function parameters, which keeps
every definition computable while preserving the control structure of the
JavaScript source.
-/

namespace CSI

/-! ## Discrete-hop scan cycle (SoftMEKA.update / SoftSThM.update, lines 77-84) -/

/-- Per-frame scan state of the discrete-hop variants: horizontal scan
coordinate, normalized cycle phase and the user-togglable scanning flag. -/
structure DiscState where
  scanX : ℚ
  cyclePhase : ℚ
  isScanning : Bool
deriving DecidableEq

/-- One tick of the discrete-hop phase/position advance, embedding
`SoftMEKA.update` lines 77-84 (identical code in `SoftSThM.update`):
when scanning, `cyclePhase += 0.02`; on `cyclePhase >= 1` the phase resets
to 0 and `scanX += 5`, wrapping to 0 once `scanX >= sampleLength`. -/
def discStep (sampleLength : ℚ) (s : DiscState) : DiscState :=
  if s.isScanning then
    if s.cyclePhase + 2/100 ≥ 1 then
      { scanX := if s.scanX + 5 ≥ sampleLength then 0 else s.scanX + 5
        cyclePhase := 0
        isScanning := s.isScanning }
    else
      { s with cyclePhase := s.cyclePhase + 2/100 }
  else s

/-! ## Discrete SoftMEKA tip physics (SoftMEKA.update, lines 99-130) -/

/-- Derived per-tick tip state of the discrete SoftMEKA variant. -/
structure MekaPhys where
  tipHeight : ℚ
  inContact : Bool
  deformation : ℚ
deriving DecidableEq

/-- Raw (uncapped) indentation depth used in the measure phase:
`def = (forceSetpoint * 20) / effectiveK` with
`effectiveK = Math.max(0.1, localK)` (SoftMEKA.update lines 120-121). -/
def mekaRawDef (forceSetpoint localK : ℚ) : ℚ :=
  forceSetpoint * 20 / max (1/10) localK

/-- Phase-banded tip physics of the discrete SoftMEKA variant
(SoftMEKA.update lines 99-130): Lift [0,0.3), Move [0.3,0.6),
Approach [0.6,0.9), Indent/Measure [0.9,0.95), Retract [0.95,...). -/
def mekaPhysics (phase surfaceY localK forceSetpoint : ℚ) : MekaPhys :=
  if phase < 3/10 then
    { tipHeight := surfaceY + phase / (3/10) * 40, inContact := false, deformation := 0 }
  else if phase < 6/10 then
    { tipHeight := surfaceY + 40, inContact := false, deformation := 0 }
  else if phase < 9/10 then
    { tipHeight := surfaceY + 40 - (phase - 6/10) / (3/10) * 40, inContact := false
      deformation := 0 }
  else if phase < 95/100 then
    { tipHeight := surfaceY - min (mekaRawDef forceSetpoint localK) 15
      inContact := true
      deformation := min (mekaRawDef forceSetpoint localK) 15 }
  else
    { tipHeight := surfaceY + 10, inContact := false, deformation := 0 }

/-! ## C-AFM resistance clamp (soft-meka.js ResiScopeApp.update lines 749-756,
part_000 ResiScopeApp.update lines 102-114) -/

/-- C-AFM limited-range clamp of the soft-meka.js ResiScopeApp
(lines 749-756): `cafmR = rLog`, then `rLog < 6` forces `(6, saturated)`
and `rLog > 10` forces `(10, saturated)`. -/
def cafmLimit (rLog : ℚ) : ℚ × Bool :=
  let c : ℚ × Bool := (rLog, false)
  let c := if rLog < 6 then ((6 : ℚ), true) else c
  let c := if rLog > 10 then ((10 : ℚ), true) else c
  c

/-- C-AFM clamp of part_000's ResiScopeApp.update (lines 112-113), applied in
`cafm` mode: `rLog < 6` gives `(6, saturated)`; `rLog > 10` clamps the value
to 10 without touching the saturation flag. -/
def cafmVisible (rLog : ℚ) : ℚ × Bool :=
  let c : ℚ × Bool := (rLog, false)
  let c := if rLog < 6 then ((6 : ℚ), true) else c
  let c := if rLog > 10 then ((10 : ℚ), c.2) else c
  c

/-! ## Continuous-oscillation SoftMEKA tip physics
(soft-meka.js second SoftMEKA.update, lines 402-436) -/

/-- Derived per-tick tip state of the continuous-oscillation variant. -/
structure ContPhys where
  inContact : Bool
  force : ℚ
  deformation : ℚ
  tipHeight : ℚ
deriving DecidableEq

/-- Contact/adhesion physics of the continuous-oscillation SoftMEKA variant
(lines 411-436): below the surface, a penetration force with asymmetric
loading/unloading gain; above the surface during retraction and within 15
units, the adhesion law `force = -0.3 * (1 - dist/15)`; otherwise zero force. -/
def contPhysics (surfaceY localK rawTipZ : ℚ) (isRetract : Bool) : ContPhys :=
  if rawTipZ < surfaceY then
    let effectiveK := max (1/10) localK
    let penetration := surfaceY - rawTipZ
    let contactForce := penetration * effectiveK * 2
    let contactForce := if isRetract then contactForce * (8/10) else contactForce * (11/10)
    let deformation := contactForce / (effectiveK * 2)
    { inContact := true
      force := contactForce
      deformation := deformation
      tipHeight := surfaceY - deformation }
  else if isRetract ∧ rawTipZ < surfaceY + 15 then
    { inContact := false
      force := -(3/10) * (1 - (rawTipZ - surfaceY) / 15)
      deformation := 0
      tipHeight := rawTipZ }
  else
    { inContact := false, force := 0, deformation := 0, tipHeight := rawTipZ }

/-! ## Resistance readout formatting -/

/-- Unit prefix selected for a textual resistance readout. -/
inductive RUnit where
  | base
  | kilo
  | mega
  | giga
deriving DecidableEq

/-- SI-prefix selection of part_000's `ResiScopeApp.formatR` (lines 131-136):
the unit tag and the displayed magnitude (`ohms` divided by the prefix
factor). -/
def formatR (ohms : ℚ) : RUnit × ℚ :=
  if ohms ≥ 10 ^ 9 then (RUnit.giga, ohms / 10 ^ 9)
  else if ohms ≥ 10 ^ 6 then (RUnit.mega, ohms / 10 ^ 6)
  else if ohms ≥ 10 ^ 3 then (RUnit.kilo, ohms / 10 ^ 3)
  else (RUnit.base, ohms)

/-- Resistance readout of `SoftResiApp.updateUI` (soft-resi.js lines 164-167):
`ohms > 1e9` shows gigaohms, every other value shows kiloohms. -/
def softResiReadout (ohms : ℚ) : RUnit × ℚ :=
  if ohms > 10 ^ 9 then (RUnit.giga, ohms / 10 ^ 9)
  else (RUnit.kilo, ohms / 10 ^ 3)

/-! ## Surface lookup with fallback -/

/-- JavaScript array indexing: defined exactly on integer indices inside
`[0, length)`, `undefined` (here `none`) elsewhere. -/
def jsGet {α : Type} (l : List α) (i : ℤ) : Option α :=
  if 0 ≤ i then l.get? i.toNat else none

/-- One surface record of SoftResiApp / ResiScopeApp. -/
structure SurfPoint where
  x : ℚ
  z : ℚ
  rLog : ℚ
deriving DecidableEq

/-- `SoftResiApp.getSurfaceAt` (soft-resi.js lines 85-88):
`surface[Math.floor(x/5)] || surface[0]`. -/
def getSurfaceAt (surface : List SurfPoint) (x : ℚ) : Option SurfPoint :=
  (jsGet surface ⌊x / 5⌋).orElse fun _ => jsGet surface 0

/-- The fields of a KFM surface record that the neutral default provides. -/
structure KReading where
  z : ℚ
  potential : ℚ
deriving DecidableEq

/-- `KFMApplication.getSurfaceAt` (part_001 lines 89-94): positions outside
`[0, sampleLength]` resolve to the neutral record `{z: 0, potential: 0}`;
otherwise `surface[Math.floor(x/step)] || surface[0]`. -/
def kfmGetSurfaceAt (sampleLength step : ℚ) (surface : List KReading) (x : ℚ) :
    Option KReading :=
  if x < 0 ∨ x > sampleLength then some { z := 0, potential := 0 }
  else (jsGet surface ⌊x / step⌋).orElse fun _ => jsGet surface 0

/-! ## KPFM measured-potential blur (kpfm.js KPFM_Comparison.applyBlur, lines 98-124) -/

/-- Operating mode of the KPFM comparison module. -/
inductive KpfmMode where
  | standard
  | hd
deriving DecidableEq

/-- The profile indices contributed to the blur at position `i`: the inner loop
of `applyBlur` runs `k` from `-40` to `40` and keeps `idx = i + k` whenever
`0 <= idx < sampleLength` (kpfm.js lines 106-113). -/
def blurContribs (sampleLength i : ℕ) : List ℤ :=
  ((List.range 81).map fun k : ℕ => (i : ℤ) + (k : ℤ) - 40).filter
    fun idx => decide (0 ≤ idx) && decide (idx < (sampleLength : ℤ))

/-- `KPFM_Comparison.applyBlur` (kpfm.js lines 98-124), value at index `i`:
standard mode divides the sum of in-bounds window values by their count;
hd mode copies the true potential. -/
def applyBlur (mode : KpfmMode) (sampleLength : ℕ) (truePotential : ℕ → ℚ)
    (i : ℕ) : ℚ :=
  match mode with
  | KpfmMode.standard =>
      ((blurContribs sampleLength i).map fun idx => truePotential idx.toNat).sum /
        ((blurContribs sampleLength i).length : ℚ)
  | KpfmMode.hd => truePotential i

/-- The window of profile indices `[i-40, i+40] ∩ [0, sampleLength)` that the
spec says the standard-mode output averages over. -/
def blurWindow (sampleLength i : ℕ) : Finset ℤ :=
  (Finset.Icc ((i : ℤ) - 40) ((i : ℤ) + 40)).filter
    fun idx => 0 ≤ idx ∧ idx < (sampleLength : ℤ)

/-- The spec-side formulation of the standard-KPFM output: the arithmetic mean
of the true potential over `blurWindow` (to be compared with `applyBlur`). -/
def specWindowMean (sampleLength : ℕ) (truePotential : ℕ → ℚ) (i : ℕ) : ℚ :=
  (∑ idx ∈ blurWindow sampleLength i, truePotential idx.toNat) /
    ((blurWindow sampleLength i).card : ℚ)

/-! ## Sample generators (soft-meka.js SoftMEKA.generateSample lines 50-68,
part_000 ResiScopeApp.generateSurface lines 43-60) -/

/-- Height channel of `SoftMEKA.generateSample` (line 53):
`100 + Math.sin(i * 0.02) * 20`, with the sine primitive as an oracle. -/
def mekaProfileAt (sine : ℚ → ℚ) (i : ℕ) : ℚ :=
  100 + sine ((i : ℚ) * (2/100)) * 20

/-- Stiffness channel of `SoftMEKA.generateSample` (lines 56-66): the matrix
stiffness, overridden by `0.9 * Math.sin(i * 0.05)` on the periodic hard
beads where `Math.sin(i * 0.05) > 0.6`. -/
def mekaStiffnessAt (sine : ℚ → ℚ) (baseStiffness : ℚ) (i : ℕ) : ℚ :=
  if sine ((i : ℚ) * (5/100)) > 6/10 then (9/10) * sine ((i : ℚ) * (5/100))
  else baseStiffness

/-- `SoftMEKA.generateSample` (lines 50-68): writes every index `0..N-1` of the
fixed-length profile/stiffness arrays.  `prev` is the profile being
regenerated; the loop overwrites all of it, so the result ignores `prev`. -/
def generateSample (sine : ℚ → ℚ) (prev : List (ℚ × ℚ)) (sampleLength : ℕ)
    (baseStiffness : ℚ) : List (ℚ × ℚ) :=
  (List.range sampleLength).map fun i =>
    (mekaProfileAt sine i, mekaStiffnessAt sine baseStiffness i)

/-- Banded resistance rule of `ResiScopeApp.generateSurface`
(part_000 lines 52-56). -/
def resiRLogAt (x : ℚ) : ℚ :=
  let r : ℚ := 12
  let r := if 300 < x ∧ x < 600 then (9 : ℚ) else r
  let r := if 800 < x ∧ x < 1200 then (4 : ℚ) else r
  let r := if 1400 < x ∧ x < 1600 then (2 : ℚ) else r
  r

/-- `ResiScopeApp.generateSurface` (part_000 lines 43-60): clears the surface
and pushes one record per position `x = 0, 5, ..., <= sampleLength`, giving
exactly `sampleLength / 5 + 1` records.  `prev` is the surface being replaced
(the method assigns a fresh array, so the result ignores `prev`). -/
def generateSurface (sine : ℚ → ℚ) (prev : List SurfPoint) (sampleLength : ℕ) :
    List SurfPoint :=
  (List.range (sampleLength / 5 + 1)).map fun j =>
    { x := ((5 * j : ℕ) : ℚ)
      z := 50 + sine (((5 * j : ℕ) : ℚ) * (1/100)) * 5
      rLog := resiRLogAt ((5 * j : ℕ) : ℚ) }

/-! ## Continuous-oscillation update with curve recording
(soft-meka.js second SoftMEKA.update, lines 376-444) -/

/-- One recorded force-curve sample `{z, f, isRetract}` (lines 440-444). -/
structure CurvePoint where
  z : ℚ
  f : ℚ
  isRetract : Bool
deriving DecidableEq

/-- Per-frame state of the continuous-oscillation variant, including the
double-buffered force-distance curve. -/
structure ContState where
  scanX : ℚ
  isScanning : Bool
  cyclePhase : ℚ
  liveCurve : List CurvePoint
  lastCurve : List CurvePoint
deriving DecidableEq

/-- Module environment of the continuous variant: the generated profile and
stiffness arrays, and the two trigonometric primitives applied to the cycle
phase (`Math.cos(phase * 2 * PI)` and `Math.sin(phase * 2 * PI)`) as
oracles. -/
structure ContCfg where
  profile : ℕ → ℚ
  stiffness : ℕ → ℚ
  cosAngle : ℚ → ℚ
  sinAngle : ℚ → ℚ

/-- Phase/position/buffer advance of the continuous variant (lines 376-390):
identical stepping to the discrete variants plus, on wrap, committing the live
curve into `lastCurve` when it holds more than 10 points and clearing it. -/
def contStepPhase (sampleLength : ℚ) (s : ContState) : ContState :=
  if s.isScanning then
    if s.cyclePhase + 2/100 ≥ 1 then
      { s with
        cyclePhase := 0
        scanX := if s.scanX + 5 ≥ sampleLength then 0 else s.scanX + 5
        lastCurve := if 10 < s.liveCurve.length then s.liveCurve else s.lastCurve
        liveCurve := [] }
    else
      { s with cyclePhase := s.cyclePhase + 2/100 }
  else s

/-- The force-curve sample computed each tick (lines 398-444): oscillating raw
tip height around `surfaceY + 40` with amplitude 50, retract half when
`sin(angle) > 0`, force from `contPhysics`, recorded as
`{z: rawTipZ - surfaceY, f: force, isRetract}`. -/
def contSample (cfg : ContCfg) (scanX cyclePhase : ℚ) : CurvePoint :=
  let sampleIdx := (⌊scanX⌋).toNat
  let surfaceY := cfg.profile sampleIdx
  let localK := cfg.stiffness sampleIdx
  let oscillation := cfg.cosAngle cyclePhase
  let rawTipZ := surfaceY + 40 - 50 * (1 - oscillation) * (1/2)
  let isRetract := decide (cfg.sinAngle cyclePhase > 0)
  { z := rawTipZ - surfaceY
    f := (contPhysics surfaceY localK rawTipZ isRetract).force
    isRetract := isRetract }

/-- One full call of the continuous-variant `update()` (lines 376-444):
advance phase/position/buffers, then push exactly one sample onto the live
curve. -/
def contUpdate (cfg : ContCfg) (sampleLength : ℚ) (s : ContState) : ContState :=
  let s2 := contStepPhase sampleLength s
  { s2 with liveCurve := s2.liveCurve ++ [contSample cfg s2.scanX s2.cyclePhase] }

end CSI

namespace CSI

/-! ## Theorems -/

/-- C1: in the discrete-hop variants, every scanning tick advances the cycle
phase by the fixed increment 0.02; when the incremented phase reaches or
exceeds 1 it resets to exactly 0 on the same tick, and only then does the scan
position advance (by the fixed hop 5, wrapping to 0 once it reaches the sample
length); on non-wrap ticks the scan position is unchanged. -/
theorem discStep_wrap_spec (L : ℚ) (s : DiscState) (h : s.isScanning = true) :
    (s.cyclePhase + 2/100 < 1 →
      (discStep L s).cyclePhase = s.cyclePhase + 2/100 ∧
      (discStep L s).scanX = s.scanX) ∧
    (1 ≤ s.cyclePhase + 2/100 →
      (discStep L s).cyclePhase = 0 ∧
      (discStep L s).scanX = if s.scanX + 5 ≥ L then 0 else s.scanX + 5) := by
  unfold discStep
  rw [h]
  constructor
  · intro hlt
    rw [if_pos rfl, if_neg (by exact not_le.mpr hlt)]
    exact ⟨rfl, rfl⟩
  · intro hge
    rw [if_pos rfl, if_pos hge]
    exact ⟨rfl, rfl⟩

/-- C1 witness: a concrete scanning state one increment below the wrap
boundary, and a concrete state that wraps and hops. -/
theorem discStep_wrap_spec_witness :
    (DiscState.mk 995 (98/100) true).isScanning = true ∧
    (1 : ℚ) ≤ 98/100 + 2/100 ∧
    (discStep 1000 (DiscState.mk 995 (98/100) true)).cyclePhase = 0 ∧
    (discStep 1000 (DiscState.mk 995 (98/100) true)).scanX = 0 := by
  refine ⟨rfl, by norm_num, ?_⟩
  have h := (discStep_wrap_spec 1000 (DiscState.mk 995 (98/100) true) rfl).2 (by norm_num)
  refine ⟨h.1, ?_⟩
  rw [h.2]
  norm_num

/-- C2: for every sampled resistance value under the C-AFM clamp with bounds
[6, 10] (both the soft-meka.js and the part_000 embodiment): a raw
`resistanceLog` below 6 reports exactly 6 with the saturation flag set, and a
raw value within [6, 10] is reported unchanged with the flag clear. -/
theorem cafm_clamp_spec (rLog : ℚ) :
    (rLog < 6 → cafmLimit rLog = (6, true) ∧ cafmVisible rLog = (6, true)) ∧
    (6 ≤ rLog → rLog ≤ 10 →
      cafmLimit rLog = (rLog, false) ∧ cafmVisible rLog = (rLog, false)) := by
  constructor
  · intro hlt
    have h10 : ¬ rLog > 10 := by linarith
    constructor <;> simp [cafmLimit, cafmVisible, hlt, h10]
  · intro h6 h10
    have hlt : ¬ rLog < 6 := not_lt.mpr h6
    have hgt : ¬ rLog > 10 := not_lt.mpr h10
    constructor <;> simp [cafmLimit, cafmVisible, hlt, hgt]

/-- C2 witness: the spec's example conductor (`resistanceLog = 4`) clamps to
`(6, true)`, and an in-range value 7 passes through as `(7, false)`. -/
theorem cafm_clamp_spec_witness :
    ((4 : ℚ) < 6 ∧ cafmLimit 4 = (6, true) ∧ cafmVisible 4 = (6, true)) ∧
    ((6 : ℚ) ≤ 7 ∧ (7 : ℚ) ≤ 10 ∧ cafmLimit 7 = (7, false) ∧ cafmVisible 7 = (7, false)) := by
  have h4 := (cafm_clamp_spec 4).1 (by norm_num)
  have h7 := (cafm_clamp_spec 7).2 (by norm_num) (by norm_num)
  exact ⟨⟨by norm_num, h4⟩, by norm_num, by norm_num, h7⟩

/-- C3: in the discrete SoftMEKA indentation variant, during the measure phase
with local stiffness 0.3 and force setpoint 0.5 the effective stiffness is
`max(0.1, 0.3) = 0.3`, the raw deformation is `(0.5*20)/0.3 = 100/3 ≈ 33.3`,
and the reported deformation is capped to exactly 15 (the tip sinking to
`surface - 15`). -/
theorem meka_indent_scenario (p s : ℚ) (h1 : 9/10 ≤ p) (h2 : p < 95/100) :
    max (1/10 : ℚ) (3/10) = 3/10 ∧
    mekaRawDef (1/2) (3/10) = 100/3 ∧
    (mekaPhysics p s (3/10) (1/2)).deformation = 15 ∧
    (mekaPhysics p s (3/10) (1/2)).tipHeight = s - 15 := by
  have hmax : max (1/10 : ℚ) (3/10) = 3/10 := by norm_num
  have hraw : mekaRawDef (1/2) (3/10) = 100/3 := by
    unfold mekaRawDef
    rw [hmax]
    norm_num
  have hmin : min (mekaRawDef (1/2 : ℚ) (3/10)) 15 = 15 := by
    rw [hraw]
    norm_num
  have hb1 : ¬ p < 3/10 := by linarith
  have hb2 : ¬ p < 6/10 := by linarith
  have hb3 : ¬ p < 9/10 := not_lt.mpr h1
  have hphys : mekaPhysics p s (3/10) (1/2) =
      { tipHeight := s - min (mekaRawDef (1/2) (3/10)) 15
        inContact := true
        deformation := min (mekaRawDef (1/2) (3/10)) 15 } := by
    unfold mekaPhysics
    rw [if_neg hb1, if_neg hb2, if_neg hb3, if_pos h2]
  rw [hphys, hmin]
  exact ⟨hmax, hraw, rfl, rfl⟩

/-- C3 witness: the scenario evaluated at the concrete measure-phase value
0.92 with surface height 100. -/
theorem meka_indent_scenario_witness :
    ((9/10 : ℚ) ≤ 92/100 ∧ (92/100 : ℚ) < 95/100) ∧
    (mekaPhysics (92/100) 100 (3/10) (1/2)).deformation = 15 ∧
    (mekaPhysics (92/100) 100 (3/10) (1/2)).tipHeight = 85 := by
  have h := meka_indent_scenario (92/100) 100 (by norm_num) (by norm_num)
  refine ⟨⟨by norm_num, by norm_num⟩, h.2.2.1, ?_⟩
  rw [h.2.2.2]
  norm_num

/-- C4: the computed `inContact` flag is true exactly when the cycle phase lies
in the configured contact sub-range [0.9, 0.95) (discrete 5-phase SoftMEKA
variant), respectively exactly when the raw oscillation tip height is strictly
below the local surface height (continuous-oscillation variant). -/
theorem inContact_iff_spec :
    (∀ p s k f : ℚ,
      ((mekaPhysics p s k f).inContact = true ↔ 9/10 ≤ p ∧ p < 95/100)) ∧
    (∀ s k z : ℚ, ∀ r : Bool,
      ((contPhysics s k z r).inContact = true ↔ z < s)) := by
  constructor
  · intro p s k f
    unfold mekaPhysics
    split_ifs with h1 h2 h3 h4
    · have : ¬ (9/10 ≤ p ∧ p < 95/100) := by
        rintro ⟨ha, _⟩
        linarith
      simpa using this
    · have : ¬ (9/10 ≤ p ∧ p < 95/100) := by
        rintro ⟨ha, _⟩
        linarith
      simpa using this
    · have : ¬ (9/10 ≤ p ∧ p < 95/100) := by
        rintro ⟨ha, _⟩
        linarith
      simpa using this
    · simpa using ⟨not_lt.mp h3, h4⟩
    · have : ¬ (9/10 ≤ p ∧ p < 95/100) := by
        rintro ⟨_, hb⟩
        exact h4 hb
      simpa using this
  · intro s k z r
    unfold contPhysics
    split_ifs with h1 h2 <;> simpa using h1

/-- C6: in the continuous-oscillation variant, a tip that is out of contact,
on the retract half of the oscillation and within the adhesion range
(0 ≤ distance < 15) feels `force = -0.3 * (1 - distance/15)`, a strictly
negative adhesive force; out of contact otherwise the force is 0. -/
theorem adhesion_force_spec (s k z : ℚ) (r : Bool) (h : ¬ z < s) :
    (r = true → z - s < 15 →
      (contPhysics s k z r).force = -(3/10) * (1 - (z - s) / 15) ∧
      (contPhysics s k z r).force < 0) ∧
    ((r = false ∨ 15 ≤ z - s) → (contPhysics s k z r).force = 0) := by
  constructor
  · rintro rfl hlt
    have hcond : (true : Bool) = true ∧ z < s + 15 := ⟨rfl, by linarith⟩
    unfold contPhysics
    rw [if_neg h, if_pos hcond]
    refine ⟨rfl, ?_⟩
    have hpos : 0 < 1 - (z - s) / 15 := by
      have : (z - s) / 15 < 1 := by
        rw [div_lt_one (by norm_num)]
        exact hlt
      linarith
    have : (0 : ℚ) < 3/10 := by norm_num
    nlinarith
  · intro hcase
    unfold contPhysics
    rw [if_neg h, if_neg ?_]
    rcases hcase with rfl | hge
    · rintro ⟨hr, _⟩
      exact Bool.false_ne_true hr
    · rintro ⟨_, hz⟩
      linarith

/-- C6 witness: with surface height 100 and tip at 105 on the retract half the
adhesive force is `-0.3*(1-5/15) = -1/5 < 0`; the same geometry on the
approach half gives zero force. -/
theorem adhesion_force_spec_witness :
    (¬ (105 : ℚ) < 100) ∧ ((105 : ℚ) - 100 < 15) ∧
    (contPhysics 100 (3/10) 105 true).force = -(1/5) ∧
    (contPhysics 100 (3/10) 105 true).force < 0 ∧
    (contPhysics 100 (3/10) 105 false).force = 0 := by
  have ht := (adhesion_force_spec 100 (3/10) 105 true (by norm_num)).1 rfl (by norm_num)
  have hf := (adhesion_force_spec 100 (3/10) 105 false (by norm_num)).2 (Or.inl rfl)
  refine ⟨by norm_num, by norm_num, ?_, ht.2, hf⟩
  rw [ht.1]
  norm_num

/-- C9 (amended): part_000's `ResiScopeApp.formatR` selects the largest prefix
among Ω/kΩ/MΩ/GΩ giving magnitude ≥ 1 (≥ 1e9 in GΩ, [1e6,1e9) in MΩ,
[1e3,1e6) in kΩ, below 1e3 in base Ω, with magnitude ≥ 1 whenever a prefix is
used); the SoftResiApp readout instead uses only two units, GΩ for values
strictly above 1e9 and kΩ for everything else. -/
theorem formatR_prefix_rule (ohms : ℚ) :
    (10 ^ 9 ≤ ohms → formatR ohms = (RUnit.giga, ohms / 10 ^ 9)) ∧
    (10 ^ 6 ≤ ohms → ohms < 10 ^ 9 → formatR ohms = (RUnit.mega, ohms / 10 ^ 6)) ∧
    (10 ^ 3 ≤ ohms → ohms < 10 ^ 6 → formatR ohms = (RUnit.kilo, ohms / 10 ^ 3)) ∧
    (ohms < 10 ^ 3 → formatR ohms = (RUnit.base, ohms)) ∧
    (10 ^ 3 ≤ ohms → 1 ≤ (formatR ohms).2) ∧
    (10 ^ 9 < ohms → softResiReadout ohms = (RUnit.giga, ohms / 10 ^ 9)) ∧
    (ohms ≤ 10 ^ 9 → softResiReadout ohms = (RUnit.kilo, ohms / 10 ^ 3)) := by
  refine ⟨?_, ?_, ?_, ?_, ?_, ?_, ?_⟩
  · intro h
    unfold formatR
    rw [if_pos h]
  · intro h6 h9
    unfold formatR
    rw [if_neg (not_le.mpr h9), if_pos h6]
  · intro hk h6
    unfold formatR
    rw [if_neg (not_le.mpr (by linarith)), if_neg (not_le.mpr h6), if_pos hk]
  · intro hb
    unfold formatR
    rw [if_neg (not_le.mpr (by linarith)), if_neg (not_le.mpr (by linarith)),
      if_neg (not_le.mpr hb)]
  · intro hk
    rcases le_or_lt (10 ^ 9 : ℚ) ohms with h9 | h9
    · unfold formatR
      rw [if_pos h9]
      show (1 : ℚ) ≤ ohms / 10 ^ 9
      rw [le_div_iff₀ (by norm_num : (0:ℚ) < 10 ^ 9)]
      linarith
    · rcases le_or_lt (10 ^ 6 : ℚ) ohms with h6 | h6
      · unfold formatR
        rw [if_neg (not_le.mpr h9), if_pos h6]
        show (1 : ℚ) ≤ ohms / 10 ^ 6
        rw [le_div_iff₀ (by norm_num : (0:ℚ) < 10 ^ 6)]
        linarith
      · unfold formatR
        rw [if_neg (not_le.mpr h9), if_neg (not_le.mpr h6), if_pos hk]
        show (1 : ℚ) ≤ ohms / 10 ^ 3
        rw [le_div_iff₀ (by norm_num : (0:ℚ) < 10 ^ 3)]
        linarith
  · intro h
    unfold softResiReadout
    rw [if_pos h]
  · intro h
    unfold softResiReadout
    rw [if_neg (not_lt.mpr h)]

/-- C9 counterexample: at the reachable raw value 100 Ω (the metallic region of
soft-resi.js has `rLog = 2`), the SoftResiApp readout reports kiloohms with
magnitude 0.1 < 1 instead of the base unit the claim requires. -/
theorem softResi_readout_counterexample :
    softResiReadout 100 = (RUnit.kilo, 1/10) ∧
    (softResiReadout 100).1 ≠ RUnit.base ∧
    (softResiReadout 100).2 < 1 := by
  have h : softResiReadout 100 = (RUnit.kilo, 1/10) := by
    unfold softResiReadout
    rw [if_neg (by norm_num)]
    norm_num
  rw [h]
  refine ⟨rfl, by simp, by norm_num⟩

/-- C9 witness: the amended rule evaluated at concrete inputs 5·10⁶ (MΩ branch
of `formatR`) and 100 (kΩ branch of the SoftResiApp readout). -/
theorem formatR_prefix_rule_witness :
    ((10 ^ 6 : ℚ) ≤ 5 * 10 ^ 6 ∧ (5 * 10 ^ 6 : ℚ) < 10 ^ 9 ∧
      formatR (5 * 10 ^ 6) = (RUnit.mega, 5)) ∧
    ((100 : ℚ) ≤ 10 ^ 9 ∧ softResiReadout 100 = (RUnit.kilo, 1/10)) := by
  have h1 := (formatR_prefix_rule (5 * 10 ^ 6)).2.1 (by norm_num) (by norm_num)
  have h2 := (formatR_prefix_rule 100).2.2.2.2.2.2 (by norm_num)
  constructor
  · refine ⟨by norm_num, by norm_num, ?_⟩
    rw [h1]
    norm_num
  · refine ⟨by norm_num, ?_⟩
    rw [h2]
    norm_num

/-- C7: surface lookup never fails: for the SoftResiApp lookup, a derived index
inside [0, length) returns the element at that index, an out-of-range index
falls back to the profile's first element, and the result is always defined on
a nonempty profile; the KFM lookup likewise always returns a defined record
(a neutral default outside the sample bounds). -/
theorem getSurfaceAt_total (surface : List SurfPoint) (x : ℚ) (h : surface ≠ []) :
    (getSurfaceAt surface x).isSome = true ∧
    (0 ≤ ⌊x / 5⌋ → (⌊x / 5⌋).toNat < surface.length →
      getSurfaceAt surface x = surface.get? (⌊x / 5⌋).toNat) ∧
    ((⌊x / 5⌋ < 0 ∨ (surface.length : ℤ) ≤ ⌊x / 5⌋) →
      getSurfaceAt surface x = surface.get? 0) ∧
    (∀ (L step : ℚ) (ks : List KReading), ks ≠ [] →
      (kfmGetSurfaceAt L step ks x).isSome = true) := by
  obtain ⟨a, l, rfl⟩ : ∃ a l, surface = a :: l := by
    cases surface with
    | nil => exact absurd rfl h
    | cons a l => exact ⟨a, l, rfl⟩
  have hzero : jsGet (a :: l) (0 : ℤ) = some a := by
    simp [jsGet]
  have hin : 0 ≤ ⌊x / 5⌋ → (⌊x / 5⌋).toNat < (a :: l).length →
      getSurfaceAt (a :: l) x = (a :: l).get? (⌊x / 5⌋).toNat := by
    intro h1 h2
    have hj : jsGet (a :: l) ⌊x / 5⌋ = (a :: l).get? (⌊x / 5⌋).toNat := by
      simp [jsGet, h1]
    unfold getSurfaceAt
    rw [hj, List.get?_eq_get h2]
    rfl
  have hout : (⌊x / 5⌋ < 0 ∨ ((a :: l).length : ℤ) ≤ ⌊x / 5⌋) →
      getSurfaceAt (a :: l) x = (a :: l).get? 0 := by
    intro hc
    have hj : jsGet (a :: l) ⌊x / 5⌋ = none := by
      unfold jsGet
      rcases hc with hneg | hge
      · rw [if_neg (not_le.mpr hneg)]
      · have h0 : 0 ≤ ⌊x / 5⌋ := by omega
        rw [if_pos h0]
        refine List.get?_eq_none.mpr ?_
        omega
    unfold getSurfaceAt
    rw [hj]
    rfl
  refine ⟨?_, hin, hout, ?_⟩
  · by_cases h1 : 0 ≤ ⌊x / 5⌋
    · by_cases h2 : (⌊x / 5⌋).toNat < (a :: l).length
      · rw [hin h1 h2, List.get?_eq_get h2]
        rfl
      · have : ((a :: l).length : ℤ) ≤ ⌊x / 5⌋ := by omega
        rw [hout (Or.inr this)]
        rfl
    · rw [hout (Or.inl (not_le.mp h1))]
      rfl
  · intro L step ks hks
    obtain ⟨b, m, rfl⟩ : ∃ b m, ks = b :: m := by
      cases ks with
      | nil => exact absurd rfl hks
      | cons b m => exact ⟨b, m, rfl⟩
    unfold kfmGetSurfaceAt
    split_ifs with hcond
    · rfl
    · cases hjj : jsGet (b :: m) ⌊x / step⌋ with
      | none => simp [jsGet]
      | some c => rfl

/-- C7 witness: on the one-point profile at the out-of-bounds position -10 the
SoftResiApp lookup returns the first element, and the KFM lookup on a one-point
profile is defined. -/
theorem getSurfaceAt_total_witness :
    ([(⟨0, 0, 12⟩ : SurfPoint)] ≠ []) ∧
    getSurfaceAt [⟨0, 0, 12⟩] (-10) = some ⟨0, 0, 12⟩ ∧
    (kfmGetSurfaceAt 2000 5 [(⟨0, 0⟩ : KReading)] (-10)).isSome = true := by
  have hfl : ⌊(-10 : ℚ) / 5⌋ < 0 := by
    have : ((-10 : ℚ) / 5) = ((-2 : ℤ) : ℚ) := by norm_num
    rw [this, Int.floor_intCast]
    norm_num
  have h := getSurfaceAt_total [⟨0, 0, 12⟩] (-10) (by simp)
  refine ⟨by simp, ?_, h.2.2.2 2000 5 [⟨0, 0⟩] (by simp)⟩
  rw [h.2.2.1 (Or.inl hfl)]
  rfl

/-- The blur contribution list never repeats an index. -/
theorem blurContribs_nodup (N i : ℕ) : (blurContribs N i).Nodup := by
  unfold blurContribs
  refine List.Nodup.filter _ ?_
  refine (List.nodup_range 81).map ?_
  intro a b hab
  have hab2 : (i : ℤ) + (a : ℤ) - 40 = (i : ℤ) + (b : ℤ) - 40 := hab
  omega

/-- Membership in the blur contribution list is exactly membership in the
window `[i-40, i+40]` intersected with the array bounds. -/
theorem mem_blurContribs {N i : ℕ} {a : ℤ} :
    a ∈ blurContribs N i ↔
      (i : ℤ) - 40 ≤ a ∧ a ≤ (i : ℤ) + 40 ∧ 0 ≤ a ∧ a < (N : ℤ) := by
  unfold blurContribs
  rw [List.mem_filter]
  constructor
  · rintro ⟨hmem, hpred⟩
    rw [List.mem_map] at hmem
    obtain ⟨k, hk, hke⟩ := hmem
    rw [List.mem_range] at hk
    have hke2 : (i : ℤ) + (k : ℤ) - 40 = a := hke
    have hpred2 : (decide (0 ≤ a) && decide (a < (N : ℤ))) = true := hpred
    rw [Bool.and_eq_true, decide_eq_true_eq, decide_eq_true_eq] at hpred2
    obtain ⟨h0, hN⟩ := hpred2
    omega
  · rintro ⟨h1, h2, h0, hN⟩
    constructor
    · rw [List.mem_map]
      refine ⟨(a - ((i : ℤ) - 40)).toNat, ?_, ?_⟩
      · rw [List.mem_range]
        omega
      · show (i : ℤ) + (((a - ((i : ℤ) - 40)).toNat : ℕ) : ℤ) - 40 = a
        omega
    · show (decide (0 ≤ a) && decide (a < (N : ℤ))) = true
      rw [Bool.and_eq_true, decide_eq_true_eq, decide_eq_true_eq]
      exact ⟨h0, hN⟩

/-- The blur contribution list enumerates exactly the spec window. -/
theorem blurContribs_toFinset (N i : ℕ) :
    (blurContribs N i).toFinset = blurWindow N i := by
  ext a
  simp only [List.mem_toFinset, mem_blurContribs, blurWindow, Finset.mem_filter,
    Finset.mem_Icc]
  tauto

/-- The standard-mode blur output is the arithmetic mean over the spec
window. -/
theorem applyBlur_standard_eq (N : ℕ) (f : ℕ → ℚ) (i : ℕ) :
    applyBlur KpfmMode.standard N f i = specWindowMean N f i := by
  unfold applyBlur specWindowMean
  rw [← blurContribs_toFinset,
    List.sum_toFinset _ (blurContribs_nodup N i),
    List.toFinset_card_of_nodup (blurContribs_nodup N i)]

/-- A window lying entirely inside a constant region blurs to that constant. -/
theorem applyBlur_const (N i : ℕ) (f : ℕ → ℚ) (c : ℚ) (h40 : 40 ≤ i)
    (hN : i + 40 < N)
    (hc : ∀ idx ∈ Finset.Icc ((i : ℤ) - 40) ((i : ℤ) + 40), f idx.toNat = c) :
    applyBlur KpfmMode.standard N f i = c := by
  rw [applyBlur_standard_eq]
  unfold specWindowMean
  have hw : blurWindow N i = Finset.Icc ((i : ℤ) - 40) ((i : ℤ) + 40) := by
    unfold blurWindow
    refine Finset.filter_true_of_mem ?_
    intro idx hidx
    rw [Finset.mem_Icc] at hidx
    omega
  have hcard : (Finset.Icc ((i : ℤ) - 40) ((i : ℤ) + 40)).card = 81 := by
    rw [Int.card_Icc]
    omega
  rw [hw, Finset.sum_congr rfl hc, Finset.sum_const, hcard, nsmul_eq_mul]
  push_cast
  rw [mul_comm, mul_div_assoc, div_self (by norm_num : (81 : ℚ) ≠ 0), mul_one]

/-- A window overlapping two constant regions blurs strictly between their
values. -/
theorem applyBlur_between (N i : ℕ) (f : ℕ → ℚ) (v1 v2 : ℚ) (hv : v1 < v2)
    (hvals : ∀ idx ∈ blurWindow N i, f idx.toNat = v1 ∨ f idx.toNat = v2)
    (h1 : ∃ idx ∈ blurWindow N i, f idx.toNat = v1)
    (h2 : ∃ idx ∈ blurWindow N i, f idx.toNat = v2) :
    v1 < applyBlur KpfmMode.standard N f i ∧
      applyBlur KpfmMode.standard N f i < v2 := by
  rw [applyBlur_standard_eq]
  unfold specWindowMean
  obtain ⟨j1, hj1, hj1v⟩ := h1
  obtain ⟨j2, hj2, hj2v⟩ := h2
  have hcard : 0 < (blurWindow N i).card := Finset.card_pos.mpr ⟨j1, hj1⟩
  have hcardQ : (0 : ℚ) < ((blurWindow N i).card : ℚ) := by exact_mod_cast hcard
  constructor
  · rw [lt_div_iff₀ hcardQ]
    calc v1 * ((blurWindow N i).card : ℚ)
        = ∑ _ ∈ blurWindow N i, v1 := by
          rw [Finset.sum_const, nsmul_eq_mul, mul_comm]
      _ < ∑ idx ∈ blurWindow N i, f idx.toNat := by
          refine Finset.sum_lt_sum ?_ ⟨j2, hj2, ?_⟩
          · intro idx hidx
            rcases hvals idx hidx with hh | hh
            · rw [hh]
            · rw [hh]
              exact le_of_lt hv
          · rw [hj2v]
            exact hv
  · rw [div_lt_iff₀ hcardQ]
    calc (∑ idx ∈ blurWindow N i, f idx.toNat)
        < ∑ _ ∈ blurWindow N i, v2 := by
          refine Finset.sum_lt_sum ?_ ⟨j1, hj1, ?_⟩
          · intro idx hidx
            rcases hvals idx hidx with hh | hh
            · rw [hh]
              exact le_of_lt hv
            · rw [hh]
          · rw [hj1v]
            exact hv
      _ = v2 * ((blurWindow N i).card : ℚ) := by
          rw [Finset.sum_const, nsmul_eq_mul, mul_comm]

/-- C5: the standard-KPFM measured potential at every index equals the
arithmetic mean of the true potential over the index window
[i-40, i+40] ∩ [0, N); a window fully inside a constant-valued region blurs to
exactly that constant, and a window overlapping two constant regions yields a
value strictly between the two region values. -/
theorem kpfm_blur_spec :
    (∀ (N : ℕ) (f : ℕ → ℚ) (i : ℕ),
      applyBlur KpfmMode.standard N f i = specWindowMean N f i) ∧
    (∀ (N i : ℕ) (f : ℕ → ℚ) (c : ℚ), 40 ≤ i → i + 40 < N →
      (∀ idx ∈ Finset.Icc ((i : ℤ) - 40) ((i : ℤ) + 40), f idx.toNat = c) →
      applyBlur KpfmMode.standard N f i = c) ∧
    (∀ (N i : ℕ) (f : ℕ → ℚ) (v1 v2 : ℚ), v1 < v2 →
      (∀ idx ∈ blurWindow N i, f idx.toNat = v1 ∨ f idx.toNat = v2) →
      (∃ idx ∈ blurWindow N i, f idx.toNat = v1) →
      (∃ idx ∈ blurWindow N i, f idx.toNat = v2) →
      v1 < applyBlur KpfmMode.standard N f i ∧
        applyBlur KpfmMode.standard N f i < v2) :=
  ⟨applyBlur_standard_eq,
   fun N i f c h40 hN hc => applyBlur_const N i f c h40 hN hc,
   fun N i f v1 v2 hv hvals h1 h2 => applyBlur_between N i f v1 v2 hv hvals h1 h2⟩

/-- C5 witness: for the step profile that is 200 on positions [500, 1000) and
0 elsewhere, the blurred output at 750 is exactly 200, and at 505 (window
overlapping the boundary) lies strictly between 0 and 200. -/
theorem kpfm_blur_spec_witness :
    applyBlur KpfmMode.standard 1000
        (fun j => if 500 ≤ j ∧ j < 1000 then (200 : ℚ) else 0) 750 = 200 ∧
    (0 : ℚ) < applyBlur KpfmMode.standard 1000
        (fun j => if 500 ≤ j ∧ j < 1000 then (200 : ℚ) else 0) 505 ∧
    applyBlur KpfmMode.standard 1000
        (fun j => if 500 ≤ j ∧ j < 1000 then (200 : ℚ) else 0) 505 < 200 := by
  refine ⟨?_, ?_⟩
  · exact kpfm_blur_spec.2.1 1000 750 _ 200 (by norm_num) (by norm_num) (by decide)
  · exact kpfm_blur_spec.2.2 1000 505 _ 0 200 (by norm_num) (by decide) (by decide)
      (by decide)

/-- C8: each sample generator produces a profile of exactly its configured
length (N entries for SoftMEKA, sampleLength/5 + 1 records for ResiScope),
the output is independent of the profile being overwritten (full overwrite),
and identical deterministic parameters always give identical output. -/
theorem generate_length_overwrite (sine : ℚ → ℚ) (prev prev2 : List (ℚ × ℚ))
    (prevS prevS2 : List SurfPoint) (N L : ℕ) (b : ℚ) :
    (generateSample sine prev N b).length = N ∧
    generateSample sine prev N b = generateSample sine prev2 N b ∧
    (generateSurface sine prevS L).length = L / 5 + 1 ∧
    generateSurface sine prevS L = generateSurface sine prevS2 L := by
  refine ⟨?_, rfl, ?_, rfl⟩ <;> simp [generateSample, generateSurface]

/-- C10: every call of the continuous-variant update appends exactly one
sample to the live force-curve buffer; when scanning is paused the phase and
scan position freeze but the buffer still grows by one identical point per
tick. -/
theorem contUpdate_appends_one (cfg : ContCfg) (L : ℚ) (s : ContState) :
    (contUpdate cfg L s).liveCurve =
      (contStepPhase L s).liveCurve ++
        [contSample cfg (contStepPhase L s).scanX (contStepPhase L s).cyclePhase] ∧
    (s.isScanning = false →
      (contUpdate cfg L s).liveCurve =
        s.liveCurve ++ [contSample cfg s.scanX s.cyclePhase] ∧
      (contUpdate cfg L s).cyclePhase = s.cyclePhase ∧
      (contUpdate cfg L s).scanX = s.scanX ∧
      (contUpdate cfg L (contUpdate cfg L s)).liveCurve =
        s.liveCurve ++ [contSample cfg s.scanX s.cyclePhase,
          contSample cfg s.scanX s.cyclePhase]) := by
  have hfreeze : ∀ t : ContState, t.isScanning = false → contStepPhase L t = t := by
    intro t ht
    simp [contStepPhase, ht]
  have happend : ∀ t : ContState, t.isScanning = false →
      (contUpdate cfg L t).liveCurve =
        t.liveCurve ++ [contSample cfg t.scanX t.cyclePhase] := by
    intro t ht
    unfold contUpdate
    rw [hfreeze t ht]
  constructor
  · rfl
  · intro h
    have h1 : contStepPhase L s = s := hfreeze s h
    have hphase : (contUpdate cfg L s).cyclePhase = s.cyclePhase := by
      unfold contUpdate
      rw [h1]
    have hx : (contUpdate cfg L s).scanX = s.scanX := by
      unfold contUpdate
      rw [h1]
    have h2 : (contUpdate cfg L s).isScanning = false := by
      unfold contUpdate
      rw [h1]
      exact h
    refine ⟨happend s h, hphase, hx, ?_⟩
    rw [happend (contUpdate cfg L s) h2, happend s h, hx, hphase]
    simp

/-- C10 witness: a paused state appends one concrete sample (zero force, tip
40 units above the surface at the oscillation top). -/
theorem contUpdate_appends_one_witness :
    (ContState.mk 0 false 0 [] []).isScanning = false ∧
    (contUpdate (ContCfg.mk (fun _ => 100) (fun _ => 3/10) (fun _ => 1)
        (fun _ => 0)) 1000 (ContState.mk 0 false 0 [] [])).liveCurve =
      [CurvePoint.mk 40 0 false] ∧
    (contUpdate (ContCfg.mk (fun _ => 100) (fun _ => 3/10) (fun _ => 1)
        (fun _ => 0)) 1000 (ContState.mk 0 false 0 [] [])).cyclePhase = 0 := by
  have h := (contUpdate_appends_one
    (ContCfg.mk (fun _ => 100) (fun _ => 3/10) (fun _ => 1) (fun _ => 0)) 1000
    (ContState.mk 0 false 0 [] [])).2 rfl
  refine ⟨rfl, ?_, h.2.1⟩
  rw [h.1]
  simp only [List.nil_append, List.cons.injEq, and_true]
  norm_num [contSample, contPhysics, CurvePoint.mk.injEq]

end CSI
